import Mathlib

/-!
Verification of the note-sequence text codec and the generation pipeline of
`myapp/views.py`.

Embedding conventions: Python strings are `List Char`; Python floats are `ℚ`.
The float operations the code performs are division and multiplication by
1000 and truncation to `int`; the rational model computes these exactly,
whereas the program's IEEE doubles can truncate one millisecond lower (for
example `int((1001 / 1000.0) * 1000.0) = 1000`). The round-trip exactness
statement is therefore confined to the specification's representative
millisecond values 0, 1, 999, 1000 and 123456, at which the IEEE
computation agrees with the exact one. Raising Python code is `Except`-valued;
the external collaborators (pydub audio decoding, librosa beat tracking, the
OpenAI completion call, the corpus filesystem, `os.listdir`, `os.path.exists`)
are explicit oracle records threaded through the orchestrator.
-/

namespace Tulen

attribute [local semireducible] Rat.mul Rat.inv Rat.add Rat.sub

deriving instance DecidableEq for Except

/-- The character list of a string literal. -/
def chars (s : String) : List Char := s.data

/-- Python `str.strip()`: remove leading and trailing whitespace. -/
def pyStrip (s : List Char) : List Char :=
  ((s.dropWhile Char.isWhitespace).reverse.dropWhile Char.isWhitespace).reverse

/-- Worker for `pySplitSep`, accumulating the current piece in reverse. -/
def pySplitSepAux (sep : Char) : List Char → List Char → List (List Char)
  | [], acc => [acc.reverse]
  | c :: cs, acc =>
    if c = sep then acc.reverse :: pySplitSepAux sep cs []
    else pySplitSepAux sep cs (c :: acc)

/-- Python `str.split(sep)` with a one-character separator, keeping empty
pieces (so splitting the empty string yields one empty piece). -/
def pySplitSep (sep : Char) (s : List Char) : List (List Char) :=
  pySplitSepAux sep s []

/-- Worker for `wsplit`, accumulating the current token in reverse. -/
def wsplitAux : List Char → List Char → List (List Char)
  | [], acc => if acc = [] then [] else [acc.reverse]
  | c :: cs, acc =>
    if c.isWhitespace then
      if acc = [] then wsplitAux cs []
      else acc.reverse :: wsplitAux cs []
    else wsplitAux cs (c :: acc)

/-- Python `str.split()` with no argument: split on runs of whitespace,
discarding empty tokens. -/
def wsplit (s : List Char) : List (List Char) := wsplitAux s []

/-- ASCII decimal digit test (the per-character test of an `int()` literal). -/
def isDigitC (c : Char) : Bool := decide (48 ≤ c.toNat) && decide (c.toNat ≤ 57)

/-- Numeric value of a big-endian ASCII digit string. -/
def parseDigitsBE (cs : List Char) : Nat :=
  cs.foldl (fun a c => a * 10 + (c.toNat - 48)) 0

/-- Characters of an integer-literal body following its leading digit:
digits, with single underscores allowed between digits (CPython accepts
`int("1_0")`; underscores may not lead, trail, or repeat). -/
def intBodyRest : List Char → Bool
  | [] => true
  | c :: rest =>
    if c = '_' then
      match rest with
      | [] => false
      | d :: rest2 => isDigitC d && intBodyRest rest2
    else isDigitC c && intBodyRest rest

/-- Body of an integer literal: nonempty with a leading digit. -/
def intBodyOk : List Char → Bool
  | [] => false
  | c :: rest => isDigitC c && intBodyRest rest

/-- Remove the underscores of an integer-literal body. -/
def delUnderscores (cs : List Char) : List Char := cs.filter (fun c => !(c == '_'))

/-- Python `int(s)` on a string: `none` exactly when `int` raises
`ValueError`. Surrounding whitespace is stripped, one optional sign. -/
def pyInt? (s : List Char) : Option Int :=
  match pyStrip s with
  | [] => none
  | c :: rest =>
    if c = '-' then
      if intBodyOk rest then some (-(parseDigitsBE (delUnderscores rest) : Int)) else none
    else if c = '+' then
      if intBodyOk rest then some ((parseDigitsBE (delUnderscores rest) : Int)) else none
    else
      if intBodyOk (c :: rest) then
        some ((parseDigitsBE (delUnderscores (c :: rest)) : Int))
      else none

/-- Decimal digits of `n`, big-endian, by fuel recursion; `[]` when `n = 0`. -/
def natReprAux : Nat → Nat → List Char
  | 0, _ => []
  | fuel + 1, n =>
    if n = 0 then [] else natReprAux fuel (n / 10) ++ [Nat.digitChar (n % 10)]

/-- Decimal representation of a natural number. -/
def natRepr (n : Nat) : List Char := if n = 0 then ['0'] else natReprAux n n

/-- Zero-pad a digit string on the left to width `k`. -/
def padTo (k : Nat) (l : List Char) : List Char := List.replicate (k - l.length) '0' ++ l

/-- Python `f-string` formatting with format spec `03d`: minimum width 3
counting the sign, filled with zeros after the sign; wider values untouched. -/
def fmt03 (n : Int) : List Char :=
  if n < 0 then '-' :: padTo 2 (natRepr n.natAbs) else padTo 3 (natRepr n.natAbs)

/-- Python `int(x)` on a float value: truncation toward zero, on the ℚ model
(`Int.tdiv` is T-rounding division, i.e. truncation toward zero). This is
exact rational truncation standing in for IEEE `int(x)`; the two agree at
the representative millisecond values the round-trip claim asserts exact,
but not at every integer (IEEE gives `int((1001 / 1000.0) * 1000.0) = 1000`),
so no theorem states exact millisecond reproduction beyond those values. -/
def pyIntOfRat (q : ℚ) : Int := q.num.tdiv (q.den : Int)

/-- `pretty_midi.Note`: velocity, pitch, start and end in (float) seconds. -/
structure PNote where
  velocity : Int
  pitch : Int
  start : ℚ
  end_ : ℚ
deriving DecidableEq

/-- `pretty_midi.Instrument`: program number, percussion flag, note list. -/
structure Instrument where
  program : Nat
  is_drum : Bool
  notes : List PNote
deriving DecidableEq

/-- `pretty_midi.PrettyMIDI`: the instrument list (all the codec touches). -/
structure PrettyMIDI where
  instruments : List Instrument
deriving DecidableEq

/-- Message of the `ValueError` raised by `int()` on a bad literal. -/
def intErr (t : List Char) : List Char :=
  chars "invalid literal for int with base 10: " ++ t

/-- One `int(field)` call: the parsed value, or the raised `ValueError`. -/
def parseIntField (t : List Char) : Except (List Char) Int :=
  match pyInt? t with
  | some v => .ok v
  | none => .error (intErr t)

/-- The note-accumulating loop of `convert_text_to_midi` over the split
lines: a line with fewer than 3 whitespace-separated fields is skipped;
otherwise the first three fields are parsed as `pitch, start_time, end_time`
(left to right, raising on the first bad one), the fourth field when present
as `velocity` (default 100), and the note is appended. -/
def decodeLines : List (List Char) → Except (List Char) (List PNote)
  | [] => .ok []
  | s :: rest =>
    match wsplit s with
    | t1 :: t2 :: t3 :: ts => do
      let pitch ← parseIntField t1
      let start_time ← parseIntField t2
      let end_time ← parseIntField t3
      let velocity ← match ts with
        | [] => Except.ok (100 : Int)
        | t4 :: _ => parseIntField t4
      let notes ← decodeLines rest
      Except.ok (⟨velocity, pitch, (start_time : ℚ) / 1000, (end_time : ℚ) / 1000⟩ :: notes)
    | _ => decodeLines rest

/-- `convert_text_to_midi` of `myapp/views.py`: strip, split on newlines,
decode each line, collect every note into one melodic program-0 instrument. -/
def convert_text_to_midi (text_data : List Char) : Except (List Char) PrettyMIDI :=
  match decodeLines (pySplitSep '\n' (pyStrip text_data)) with
  | .error e => .error e
  | .ok notes => .ok ⟨[⟨0, false, notes⟩]⟩

/-- The line emitted for one note, without its terminating newline: the four
integer fields `pitch start_ms end_ms velocity` in that fixed order, each
formatted with `{value:03d}`, separated by single spaces. The millisecond
fields are `int(note.start * 1000)` and `int(note.end * 1000)`. -/
def noteBody (note : PNote) : List Char :=
  fmt03 note.pitch ++ ' ' :: fmt03 (pyIntOfRat (note.start * 1000)) ++ ' ' ::
    fmt03 (pyIntOfRat (note.end_ * 1000)) ++ ' ' :: fmt03 note.velocity

/-- One emitted line: the note body followed by a line break. -/
def noteLine (note : PNote) : List Char := noteBody note ++ ['\n']

/-- The corpus filesystem the encoder consults: `os.path.isfile`, and the
`pretty_midi.PrettyMIDI(path)` constructor which may raise. -/
structure CorpusFS where
  isfile : List Char → Bool
  load : List Char → Except (List Char) PrettyMIDI

/-- The inner `for note in instrument.notes` loop, appending one line per
note onto the accumulated string. -/
def notesText : List PNote → List Char → List Char
  | [], acc => acc
  | n :: ns, acc => notesText ns (acc ++ noteLine n)

/-- The `for instrument in midi.instruments` loop. -/
def instrumentsText : List Instrument → List Char → List Char
  | [], acc => acc
  | i :: is, acc => instrumentsText is (notesText i.notes acc)

/-- The `for midi_file_path in midi_file_paths` loop: skip non-files, skip
(log) files whose parse raises, append every note line of the rest. -/
def filesText (fs : CorpusFS) : List (List Char) → List Char → List Char
  | [], acc => acc
  | p :: ps, acc =>
    if fs.isfile p then
      match fs.load p with
      | .error _ => filesText fs ps acc
      | .ok midi => filesText fs ps (instrumentsText midi.instruments acc)
    else filesText fs ps acc

/-- `generate_midi_text_from_files` of `myapp/views.py`: the combined note
string over all readable corpus files, in order, with no delimiters. -/
def generate_midi_text_from_files (fs : CorpusFS) (midi_file_paths : List (List Char)) :
    List Char :=
  filesText fs midi_file_paths []

/-- `s.startswith(p)` on character lists. -/
def startsWithL : List Char → List Char → Bool
  | _, [] => true
  | [], _ :: _ => false
  | c :: cs, p :: ps => (c == p) && startsWithL cs ps

/-- `s.endswith(p)` on character lists. -/
def endsWithL (s p : List Char) : Bool := startsWithL s.reverse p.reverse

/-- Python `str.lower()` (ASCII case folding, which is all the code needs). -/
def pyLower (s : List Char) : List Char := s.map Char.toLower

/-- `os.path.join(a, b)` for POSIX paths. -/
def os_path_join (a b : List Char) : List Char :=
  if startsWithL b (chars "/") then b
  else if a = [] then b
  else if endsWithL a (chars "/") then a ++ b
  else a ++ '/' :: b

/-- `get_filtered_midi_files` of `myapp/views.py`, with the directory path
and its listing made explicit (they come from `os.getcwd`/`os.listdir`):
keep the files whose lowercased name ends with `.mid` and lowercased name
starts with some lowercased keyword, joined onto the folder path, in listing
order. -/
def get_filtered_midi_files (folder_path : List Char) (all_files : List (List Char))
    (style_keywords : List (List Char)) : List (List Char) :=
  (all_files.filter (fun f =>
    endsWithL (pyLower f) (chars ".mid") &&
      style_keywords.any (fun keyword => startsWithL (pyLower f) (pyLower keyword)))).map
    (fun f => os_path_join folder_path f)

/-- Decimal-ish rendering of the tempo for the prompt. The source interpolates
a numpy float into an f-string; the exact float rendering is plumbing no claim
depends on, so the ℚ rendering stands in for it. -/
def ratRepr (q : ℚ) : List Char := (toString q).data

/-- The prompt built by `get_midi_modifications_from_gpt3`. -/
def gptPrompt (bpm : ℚ) (text : List Char) : List Char :=
  chars "Generate new MIDI data with a BPM of " ++ ratRepr bpm ++
    chars " using the following data as a template:" ++ '\n' :: '\n' :: text ++
    '\n' :: '\n' :: chars "Please provide the new MIDI data with the same number of lines."

/-- `get_midi_modifications_from_gpt3` of `myapp/views.py`: call the
completion service on the prompt; on success return the stripped completion
text, on any raise log and return the empty string. -/
def get_midi_modifications_from_gpt3
    (complete : List Char → Except (List Char) (List Char)) (bpm : ℚ)
    (text : List Char) : List Char :=
  match complete (gptPrompt bpm text) with
  | .ok t => pyStrip t
  | .error _ => []

/-- `get_bpm_from_wav` of `myapp/views.py`: the librosa load / onset /
beat-track chain is one opaque primitive; on success its tempo is returned,
on any raise the failure is logged and the sentinel tempo 0 returned. -/
def get_bpm_from_wav (beat_track : List Char → Except (List Char) ℚ)
    (wav_file : List Char) : ℚ :=
  match beat_track wav_file with
  | .ok tempo => tempo
  | .error _ => 0

/-- Index of the last occurrence of `c` in `l`. -/
def lastIdxOf (c : Char) (l : List Char) : Option Nat :=
  match l.reverse.findIdx? (fun d => d == c) with
  | none => none
  | some i => some (l.length - 1 - i)

/-- The stem `os.path.splitext(p)[0]`: cut at the last dot of the final path
component, unless every character between the component start and that dot is
itself a dot (CPython `posixpath.splitext`). -/
def splitextStem (p : List Char) : List Char :=
  match lastIdxOf '.' p with
  | none => p
  | some di =>
    let si : Nat :=
      match lastIdxOf '/' p with
      | none => 0
      | some s => s + 1
    if decide (si < di) && ((p.drop si).take (di - si)).any (fun c => !(c == '.')) then
      p.take di
    else p

/-- The uploaded file: all the pipeline reads from it is its name. -/
structure UploadedFile where
  name : List Char
deriving DecidableEq

/-- The inbound request: method, the `FILES["file"]` entry when present, and
the `POST.get("styleList")` text field (a single string) when present. -/
structure Request where
  method : List Char
  file? : Option UploadedFile
  styleList? : Option (List Char)
deriving DecidableEq

/-- The three response shapes `upload` produces: `JsonResponse` with an
error message and a status, a `FileResponse` attachment, and a plain
`HttpResponse` body with a status. -/
inductive Response
  | json (errmsg : List Char) (status : Nat)
  | fileAttachment (filepath : List Char)
  | plainText (body : List Char) (status : Nat)
deriving DecidableEq

/-- Whether a response is a JSON error response. -/
def Response.isJsonError : Response → Bool
  | .json _ _ => true
  | _ => false

/-- The HTTP status of a response (`FileResponse` streams with 200). -/
def Response.statusOf : Response → Nat
  | .json _ s => s
  | .fileAttachment _ => 200
  | .plainText _ s => s

/-- The pipeline stages of the specification's orchestrator, recorded in the
order they start executing. -/
inductive Stage
  | decodeAudioStep
  | estimateTempoStep
  | selectCorpusStep
  | encodeReferenceStep
  | generateStep
  | decodeResultStep
  | persistStep
deriving DecidableEq

/-- The external world `upload` interacts with: results of
`AudioSegment.from_file`, `audio.export`, the librosa chain, `os.getcwd`,
`os.listdir` of the corpus directory, the corpus filesystem, the completion
service, `midi.write`, and the final `os.path.exists` probe. -/
structure World where
  audio_from_file : Except (List Char) Unit
  audio_export : Except (List Char) Unit
  beat_track : List Char → Except (List Char) ℚ
  cwd : List Char
  listdir : Except (List Char) (List (List Char))
  corpus : CorpusFS
  complete : List Char → Except (List Char) (List Char)
  midi_write : Except (List Char) Unit
  saved_exists : Bool

/-- Message of the `MultiValueDictKeyError` a missing `FILES["file"]` raises
(Django renders the missing key). -/
def missing_file_msg : List Char := chars "KeyError: file"

/-- Message of the `TypeError` raised when the style field is absent and the
selector iterates over `None`. -/
def noneIterMsg : List Char := chars "argument of type NoneType is not iterable"

/-- Iterating a Python string yields its characters as one-character
strings; this is what `get_filtered_midi_files` receives as its keyword
collection when `upload` hands it the raw text-field value. -/
def keywordsOfStyle (style_list : List Char) : List (List Char) :=
  style_list.map (fun c => [c])

/-- All seven pipeline stages, in execution order. -/
def allStages : List Stage :=
  [.decodeAudioStep, .estimateTempoStep, .selectCorpusStep, .encodeReferenceStep,
    .generateStep, .decodeResultStep, .persistStep]

/-- `upload` of `myapp/views.py` as a function of the request and the
external world, paired with the list of pipeline stages that started.
Control flow follows the source: a non-POST method returns a 405 JSON error
before the `try` block; everything else runs inside one `try` whose handler
returns a 500 JSON error carrying the exception text; the missing-file
`KeyError` and the missing-style `TypeError` are raised inside that `try`.
The `TypeError` fires only when the selector comprehension actually iterates
the keywords, i.e. when some listed file passes the `.mid` suffix test. -/
def upload (req : Request) (w : World) : Response × List Stage :=
  if req.method ≠ chars "POST" then
    (.json (chars "Only POST method is allowed") 405, [])
  else
    match req.file? with
    | none => (.json missing_file_msg 500, [])
    | some uploaded_file =>
      match w.audio_from_file with
      | .error e => (.json e 500, [.decodeAudioStep])
      | .ok _ =>
        match w.audio_export with
        | .error e => (.json e 500, [.decodeAudioStep])
        | .ok _ =>
          let bpm := get_bpm_from_wav w.beat_track (chars "temp.wav")
          let midi_paths_res : Except (List Char) (List (List Char)) :=
            match w.listdir with
            | .error e => .error e
            | .ok all_files =>
              match req.styleList? with
              | some style_list =>
                .ok (get_filtered_midi_files (os_path_join w.cwd (chars "mids"))
                  all_files (keywordsOfStyle style_list))
              | none =>
                if all_files.any (fun f => endsWithL (pyLower f) (chars ".mid")) then
                  .error noneIterMsg
                else .ok []
          match midi_paths_res with
          | .error e =>
            (.json e 500, [.decodeAudioStep, .estimateTempoStep, .selectCorpusStep])
          | .ok midi_paths =>
            let midi_text_sample := generate_midi_text_from_files w.corpus midi_paths
            let gpt3_midi_text :=
              get_midi_modifications_from_gpt3 w.complete bpm midi_text_sample
            match convert_text_to_midi gpt3_midi_text with
            | .error e =>
              (.json e 500, [.decodeAudioStep, .estimateTempoStep, .selectCorpusStep,
                .encodeReferenceStep, .generateStep, .decodeResultStep])
            | .ok _midi_data =>
              match w.midi_write with
              | .error e => (.json e 500, allStages)
              | .ok _ =>
                let saved_filepath :=
                  os_path_join w.cwd (splitextStem uploaded_file.name ++ chars ".midi")
                if w.saved_exists then
                  (.fileAttachment saved_filepath, allStages)
                else
                  (.plainText (chars "File not found") 404, allStages)

/-- Concatenate bodies, terminating every body with a line break (the shape
of the combined note string the encoder emits). -/
def unlines : List (List Char) → List Char
  | [] => []
  | b :: bs => b ++ '\n' :: unlines bs

/-- Join bodies with a line break between consecutive bodies and no trailing
break (the shape left after `strip()`). -/
def interNl : List (List Char) → List Char
  | [] => []
  | [b] => b
  | b :: bs => b ++ '\n' :: interNl bs

/-- A note with its four fields as the integer milliseconds the text format
carries (the claims' "documented ranges" are integer millisecond fields). -/
structure MsNote where
  pitch : Int
  start_ms : Int
  end_ms : Int
  velocity : Int
deriving DecidableEq

/-- The stored `pretty_midi` form of an integer-millisecond note: seconds
are the parsed integers divided by 1000. -/
def msToPNote (m : MsNote) : PNote :=
  ⟨m.velocity, m.pitch, (m.start_ms : ℚ) / 1000, (m.end_ms : ℚ) / 1000⟩

/-- The specification's representative millisecond values, for which the
program's IEEE computation `int((n / 1000.0) * 1000.0)` reproduces `n`
exactly, agreeing with the exact rational model (checked numerically; at
other integers such as 1001 the IEEE product truncates one lower). The
round-trip exactness statement quantifies only over these. -/
def representativeMs : List Int := [0, 1, 999, 1000, 123456]

/-- The note a single line decodes to, `none` when the line is skipped
(fewer than 3 fields) or when one of its parsed fields makes `int()` raise.
Used to state which notes a tolerant decode run collects. -/
def lineNote? (s : List Char) : Option PNote :=
  match wsplit s with
  | t1 :: t2 :: t3 :: ts => do
    let pitch ← pyInt? t1
    let start_time ← pyInt? t2
    let end_time ← pyInt? t3
    let velocity ← match ts with
      | [] => some (100 : Int)
      | t4 :: _ => pyInt? t4
    some ⟨velocity, pitch, (start_time : ℚ) / 1000, (end_time : ℚ) / 1000⟩
  | _ => none

/-- A line the decoder handles without raising: skipped (fewer than 3
fields) or fully parseable. -/
def lineOk (s : List Char) : Bool :=
  if (wsplit s).length < 3 then true else (lineNote? s).isSome

/-! ### Character and digit-string lemmas -/

lemma isDigitC_toNat {c : Char} (h : isDigitC c = true) : 48 ≤ c.toNat ∧ c.toNat ≤ 57 := by
  simpa [isDigitC] using h

lemma not_ws_of_digit {c : Char} (h : isDigitC c = true) : c.isWhitespace = false := by
  obtain ⟨h1, _⟩ := isDigitC_toNat h
  cases hw : c.isWhitespace
  · rfl
  · exfalso
    simp only [Char.isWhitespace, Bool.or_eq_true, decide_eq_true_eq] at hw
    rcases hw with ((h3 | h3) | h3) | h3 <;> subst h3 <;> exact absurd h1 (by decide)

lemma ne_of_digit {c d : Char} (h : isDigitC c = true) (hd : isDigitC d = false) :
    ¬(c = d) := by
  intro e
  subst e
  rw [h] at hd
  cases hd

lemma ne_nl_of_not_ws {c : Char} (h : c.isWhitespace = false) : ¬(c = '\n') := by
  intro e
  subst e
  exact absurd h (by decide)

lemma digitChar_digit {d : Nat} (h : d < 10) : isDigitC (Nat.digitChar d) = true := by
  interval_cases d <;> decide

lemma digitChar_val {d : Nat} (h : d < 10) : (Nat.digitChar d).toNat - 48 = d := by
  interval_cases d <;> decide

lemma mem_of_head? {l : List Char} {c : Char} (h : l.head? = some c) : c ∈ l := by
  cases l with
  | nil => simp at h
  | cons a t =>
    simp only [List.head?_cons, Option.some.injEq] at h
    subst h
    exact List.mem_cons_self _ _

/-! ### Printing digits and parsing them back -/

lemma parseDigitsBE_append_singleton (l : List Char) (c : Char) :
    parseDigitsBE (l ++ [c]) = parseDigitsBE l * 10 + (c.toNat - 48) := by
  simp [parseDigitsBE, List.foldl_append]

lemma natReprAux_succ {fuel n : Nat} (h : ¬(n = 0)) :
    natReprAux (fuel + 1) n = natReprAux fuel (n / 10) ++ [Nat.digitChar (n % 10)] := by
  simp [natReprAux, h]

lemma natReprAux_digits : ∀ fuel n, ∀ c ∈ natReprAux fuel n, isDigitC c = true := by
  intro fuel
  induction fuel with
  | zero => intro n c hc; simp [natReprAux] at hc
  | succ fuel ih =>
    intro n c hc
    by_cases h : n = 0
    · simp [natReprAux, h] at hc
    · rw [natReprAux_succ h] at hc
      rcases List.mem_append.mp hc with h1 | h1
      · exact ih _ _ h1
      · simp only [List.mem_singleton] at h1
        subst h1
        exact digitChar_digit (Nat.mod_lt _ (by norm_num))

lemma parse_natReprAux : ∀ fuel n, n ≤ fuel → parseDigitsBE (natReprAux fuel n) = n := by
  intro fuel
  induction fuel with
  | zero =>
    intro n h
    interval_cases n
    rfl
  | succ fuel ih =>
    intro n h
    by_cases h0 : n = 0
    · subst h0; rfl
    · have hdiv : n / 10 ≤ fuel := by
        have := Nat.div_lt_self (Nat.pos_of_ne_zero h0) (by norm_num : 1 < 10)
        omega
      rw [natReprAux_succ h0, parseDigitsBE_append_singleton, ih (n / 10) hdiv,
        digitChar_val (Nat.mod_lt _ (by norm_num))]
      omega

lemma natRepr_digits {n : Nat} : ∀ c ∈ natRepr n, isDigitC c = true := by
  intro c hc
  by_cases h : n = 0
  · subst h
    simp [natRepr] at hc
    rw [hc]
    decide
  · rw [natRepr, if_neg h] at hc
    exact natReprAux_digits _ _ _ hc

lemma natRepr_last (m : Nat) : ∃ l d, natRepr m = l ++ [d] ∧ isDigitC d = true := by
  by_cases h : m = 0
  · subst h
    exact ⟨[], '0', rfl, by decide⟩
  · rw [natRepr, if_neg h]
    cases m with
    | zero => exact absurd rfl h
    | succ k =>
      rw [natReprAux_succ h]
      exact ⟨_, _, rfl, digitChar_digit (Nat.mod_lt _ (by norm_num))⟩

lemma natRepr_ne_nil (n : Nat) : natRepr n ≠ [] := by
  obtain ⟨l, d, e, _⟩ := natRepr_last n
  rw [e]
  simp

lemma parse_natRepr (n : Nat) : parseDigitsBE (natRepr n) = n := by
  by_cases h : n = 0
  · subst h; decide
  · rw [natRepr, if_neg h]
    exact parse_natReprAux n n le_rfl

/-! ### Padding -/

lemma padTo_digits {k : Nat} {l : List Char} (hl : ∀ c ∈ l, isDigitC c = true) :
    ∀ c ∈ padTo k l, isDigitC c = true := by
  intro c hc
  rcases List.mem_append.mp hc with h | h
  · rw [List.eq_of_mem_replicate h]
    decide
  · exact hl c h

lemma padTo_ne_nil {k : Nat} {l : List Char} (hl : l ≠ []) : padTo k l ≠ [] := by
  unfold padTo
  intro e
  exact hl (List.append_eq_nil.mp e).2

lemma parseDigitsBE_cons_zero (t : List Char) : parseDigitsBE ('0' :: t) = parseDigitsBE t := rfl

lemma parse_padTo (k : Nat) (l : List Char) : parseDigitsBE (padTo k l) = parseDigitsBE l := by
  unfold padTo
  generalize k - l.length = m
  induction m with
  | zero => rfl
  | succ m ih =>
    rw [List.replicate_succ, List.cons_append]
    exact (parseDigitsBE_cons_zero _).trans ih

/-! ### Integer-literal bodies -/

lemma intBodyRest_digits : ∀ l : List Char, (∀ c ∈ l, isDigitC c = true) →
    intBodyRest l = true := by
  intro l
  induction l with
  | nil => intro _; rfl
  | cons c rest ih =>
    intro h
    have hc := h c (List.mem_cons_self c rest)
    have hne : ¬(c = '_') := ne_of_digit hc (by decide)
    rw [intBodyRest.eq_def]
    dsimp only
    rw [if_neg hne, hc, ih (fun d hd => h d (List.mem_cons_of_mem _ hd))]
    rfl

lemma intBodyOk_digits {l : List Char} (hne : l ≠ []) (h : ∀ c ∈ l, isDigitC c = true) :
    intBodyOk l = true := by
  cases l with
  | nil => exact absurd rfl hne
  | cons c rest =>
    rw [intBodyOk, h c (List.mem_cons_self c rest),
      intBodyRest_digits rest (fun d hd => h d (List.mem_cons_of_mem _ hd))]
    rfl

lemma delUnderscores_digits {l : List Char} (h : ∀ c ∈ l, isDigitC c = true) :
    delUnderscores l = l := by
  unfold delUnderscores
  apply List.filter_eq_self.mpr
  intro a ha
  have hne : ¬(a = '_') := ne_of_digit (h a ha) (by decide)
  simp [hne]

/-! ### Stripping -/

lemma dropWhile_eq_self_of_head (p : Char → Bool) :
    ∀ l : List Char, (∀ c, l.head? = some c → p c = false) → l.dropWhile p = l := by
  intro l h
  cases l with
  | nil => rfl
  | cons c cs =>
    rw [List.dropWhile_cons, h c rfl]
    simp

lemma pyStrip_eq_self {l : List Char} (h1 : ∀ c, l.head? = some c → c.isWhitespace = false)
    (h2 : ∀ c, l.reverse.head? = some c → c.isWhitespace = false) : pyStrip l = l := by
  unfold pyStrip
  rw [dropWhile_eq_self_of_head _ l h1, dropWhile_eq_self_of_head _ l.reverse h2,
    List.reverse_reverse]

lemma pyStrip_no_ws {l : List Char} (h : ∀ c ∈ l, c.isWhitespace = false) : pyStrip l = l :=
  pyStrip_eq_self (fun c hc => h c (mem_of_head? hc))
    (fun c hc => h c (List.mem_reverse.mp (mem_of_head? hc)))

/-! ### `fmt03` and its parse-back -/

lemma fmt03_pos {n : Int} (h : ¬(n < 0)) : fmt03 n = padTo 3 (natRepr n.natAbs) := by
  rw [fmt03, if_neg h]

lemma fmt03_neg {n : Int} (h : n < 0) : fmt03 n = '-' :: padTo 2 (natRepr n.natAbs) := by
  rw [fmt03, if_pos h]

lemma fmt03_chars {n : Int} : ∀ c ∈ fmt03 n, isDigitC c = true ∨ c = '-' := by
  intro c hc
  by_cases h : n < 0
  · rw [fmt03_neg h] at hc
    rcases List.mem_cons.mp hc with h1 | h1
    · exact Or.inr h1
    · exact Or.inl (padTo_digits (fun d hd => natRepr_digits d hd) c h1)
  · rw [fmt03_pos h] at hc
    exact Or.inl (padTo_digits (fun d hd => natRepr_digits d hd) c hc)

lemma fmt03_not_ws {n : Int} : ∀ c ∈ fmt03 n, c.isWhitespace = false := by
  intro c hc
  rcases fmt03_chars c hc with h | h
  · exact not_ws_of_digit h
  · subst h; decide

lemma fmt03_ne_nil (n : Int) : fmt03 n ≠ [] := by
  by_cases h : n < 0
  · rw [fmt03_neg h]; simp
  · rw [fmt03_pos h]; exact padTo_ne_nil (natRepr_ne_nil _)

lemma fmt03_last (n : Int) : ∃ l d, fmt03 n = l ++ [d] ∧ isDigitC d = true := by
  obtain ⟨l, d, e, hd⟩ := natRepr_last n.natAbs
  by_cases h : n < 0
  · refine ⟨'-' :: (List.replicate (2 - (natRepr n.natAbs).length) '0' ++ l), d, ?_, hd⟩
    rw [fmt03_neg h]
    unfold padTo
    rw [e, List.cons_append, List.append_assoc]
  · refine ⟨List.replicate (3 - (natRepr n.natAbs).length) '0' ++ l, d, ?_, hd⟩
    rw [fmt03_pos h]
    unfold padTo
    rw [e, List.append_assoc]

lemma pyInt?_fmt03 (n : Int) : pyInt? (fmt03 n) = some n := by
  have hs : pyStrip (fmt03 n) = fmt03 n := pyStrip_no_ws fmt03_not_ws
  by_cases h : n < 0
  · have e : fmt03 n = '-' :: padTo 2 (natRepr n.natAbs) := fmt03_neg h
    have hok : intBodyOk (padTo 2 (natRepr n.natAbs)) = true :=
      intBodyOk_digits (padTo_ne_nil (natRepr_ne_nil _))
        (padTo_digits (fun d hd => natRepr_digits d hd))
    have hdel : delUnderscores (padTo 2 (natRepr n.natAbs)) = padTo 2 (natRepr n.natAbs) :=
      delUnderscores_digits (padTo_digits (fun d hd => natRepr_digits d hd))
    rw [pyInt?, hs, e]
    simp only [if_pos rfl, hok, if_true, hdel, parse_padTo, parse_natRepr]
    have : -((n.natAbs : Int)) = n := by omega
    rw [this]
  · have hdig : ∀ c ∈ fmt03 n, isDigitC c = true := by
      rw [fmt03_pos h]
      exact padTo_digits (fun d hd => natRepr_digits d hd)
    obtain ⟨c, cs, e⟩ := List.exists_cons_of_ne_nil (fmt03_ne_nil n)
    have hc : isDigitC c = true := hdig c (e ▸ List.mem_cons_self c cs)
    have hok : intBodyOk (c :: cs) = true := by
      rw [← e]
      exact intBodyOk_digits (fmt03_ne_nil n) hdig
    have hdel : delUnderscores (c :: cs) = c :: cs := by
      rw [← e]
      exact delUnderscores_digits hdig
    have hparse : parseDigitsBE (c :: cs) = n.natAbs := by
      rw [← e, fmt03_pos h, parse_padTo, parse_natRepr]
    rw [pyInt?, hs, e]
    simp only [if_neg (ne_of_digit hc (by decide : isDigitC '-' = false)),
      if_neg (ne_of_digit hc (by decide : isDigitC '+' = false)), hok, if_true, hdel, hparse]
    have : ((n.natAbs : Int)) = n := by omega
    rw [this]

lemma parseIntField_fmt03 (n : Int) : parseIntField (fmt03 n) = .ok n := by
  rw [parseIntField, pyInt?_fmt03]

/-! ### Whitespace splitting -/

lemma wsplitAux_nil (acc : List Char) :
    wsplitAux [] acc = if acc = [] then [] else [acc.reverse] := rfl

lemma wsplitAux_cons (c : Char) (cs acc : List Char) :
    wsplitAux (c :: cs) acc =
      if c.isWhitespace then
        (if acc = [] then wsplitAux cs [] else acc.reverse :: wsplitAux cs [])
      else wsplitAux cs (c :: acc) := rfl

lemma wsplitAux_token : ∀ t rest acc : List Char,
    t ≠ [] → (∀ c ∈ t, c.isWhitespace = false) →
    wsplitAux (t ++ ' ' :: rest) acc = (acc.reverse ++ t) :: wsplitAux rest [] := by
  intro t
  induction t with
  | nil => intro rest acc h _; exact absurd rfl h
  | cons c t ih =>
    intro rest acc _ hw
    have hc : c.isWhitespace = false := hw c (List.mem_cons_self _ _)
    rw [List.cons_append, wsplitAux_cons, hc]
    simp only [Bool.false_eq_true, if_false]
    cases t with
    | nil =>
      rw [List.nil_append, wsplitAux_cons]
      simp only [show (' ').isWhitespace = true from rfl, if_true,
        if_neg (by simp : ¬(c :: acc = []))]
      simp
    | cons d t2 =>
      rw [ih rest (c :: acc) (by simp) (fun x hx => hw x (List.mem_cons_of_mem _ hx))]
      simp

lemma wsplitAux_last : ∀ t acc : List Char, (∀ c ∈ t, c.isWhitespace = false) →
    wsplitAux t acc = if acc.reverse ++ t = [] then [] else [acc.reverse ++ t] := by
  intro t
  induction t with
  | nil =>
    intro acc _
    rw [wsplitAux_nil]
    by_cases h : acc = []
    · subst h; simp
    · rw [if_neg h, if_neg (by simp [h])]
      simp
  | cons c t ih =>
    intro acc hw
    have hc := hw c (List.mem_cons_self _ _)
    rw [wsplitAux_cons, hc]
    simp only [Bool.false_eq_true, if_false]
    rw [ih (c :: acc) (fun x hx => hw x (List.mem_cons_of_mem _ hx))]
    have e : (c :: acc).reverse ++ t = acc.reverse ++ c :: t := by simp
    rw [e]

lemma wsplit_token {t rest : List Char} (h1 : t ≠ [])
    (h2 : ∀ c ∈ t, c.isWhitespace = false) :
    wsplit (t ++ ' ' :: rest) = t :: wsplit rest := by
  unfold wsplit
  rw [wsplitAux_token t rest [] h1 h2]
  simp

lemma wsplit_single {t : List Char} (h1 : t ≠ [])
    (h2 : ∀ c ∈ t, c.isWhitespace = false) : wsplit t = [t] := by
  unfold wsplit
  rw [wsplitAux_last t [] h2]
  simp [h1]

/-! ### Separator splitting -/

lemma pySplitSepAux_cons (sep c : Char) (cs acc : List Char) :
    pySplitSepAux sep (c :: cs) acc =
      if c = sep then acc.reverse :: pySplitSepAux sep cs []
      else pySplitSepAux sep cs (c :: acc) := rfl

lemma pySplitSepAux_no_sep {sep : Char} : ∀ t acc : List Char, (∀ c ∈ t, ¬(c = sep)) →
    pySplitSepAux sep t acc = [acc.reverse ++ t] := by
  intro t
  induction t with
  | nil => intro acc _; simp [pySplitSepAux]
  | cons c t ih =>
    intro acc h
    rw [pySplitSepAux_cons, if_neg (h c (List.mem_cons_self _ _)),
      ih (c :: acc) (fun x hx => h x (List.mem_cons_of_mem _ hx))]
    simp

lemma pySplitSepAux_token {sep : Char} : ∀ t rest acc : List Char, (∀ c ∈ t, ¬(c = sep)) →
    pySplitSepAux sep (t ++ sep :: rest) acc =
      (acc.reverse ++ t) :: pySplitSepAux sep rest [] := by
  intro t
  induction t with
  | nil =>
    intro rest acc _
    rw [List.nil_append, pySplitSepAux_cons, if_pos rfl]
    simp
  | cons c t ih =>
    intro rest acc h
    rw [List.cons_append, pySplitSepAux_cons, if_neg (h c (List.mem_cons_self _ _)),
      ih rest (c :: acc) (fun x hx => h x (List.mem_cons_of_mem _ hx))]
    simp

/-! ### `unlines`, `interNl`, and stripping the encoder output -/

lemma interNl_single (b : List Char) : interNl [b] = b := rfl

lemma interNl_cons2 (b b2 : List Char) (bs : List (List Char)) :
    interNl (b :: b2 :: bs) = b ++ '\n' :: interNl (b2 :: bs) := rfl

lemma interNl_ne_nil : ∀ bs : List (List Char), bs ≠ [] → (∀ b ∈ bs, b ≠ []) →
    interNl bs ≠ [] := by
  intro bs h0 hne
  cases bs with
  | nil => exact absurd rfl h0
  | cons b bs =>
    cases bs with
    | nil => rw [interNl_single]; exact hne b (List.mem_cons_self _ _)
    | cons b2 bs2 =>
      rw [interNl_cons2]
      obtain ⟨c, cs, e⟩ := List.exists_cons_of_ne_nil (hne b (List.mem_cons_self _ _))
      rw [e]
      simp

lemma dropWhile_append_left (p : Char → Bool) : ∀ X Y : List Char, X.dropWhile p ≠ [] →
    (X ++ Y).dropWhile p = X.dropWhile p ++ Y := by
  intro X
  induction X with
  | nil => intro Y h; exact absurd rfl h
  | cons c X ih =>
    intro Y h
    cases hp : p c with
    | true =>
      simp only [List.cons_append, List.dropWhile_cons, hp, if_true] at h ⊢
      exact ih Y h
    | false =>
      simp only [List.cons_append, List.dropWhile_cons, hp, Bool.false_eq_true, if_false]

lemma strip_unlines_back : ∀ bs : List (List Char), bs ≠ [] →
    (∀ b ∈ bs, b ≠ []) →
    (∀ b ∈ bs, ∀ c, b.reverse.head? = some c → c.isWhitespace = false) →
    (unlines bs).reverse.dropWhile Char.isWhitespace = (interNl bs).reverse := by
  intro bs
  induction bs with
  | nil => intro h; exact absurd rfl h
  | cons b bs ih =>
    intro _ hne hlast
    cases bs with
    | nil =>
      have e : unlines [b] = b ++ ['\n'] := rfl
      rw [e, List.reverse_append]
      simp only [List.reverse_cons, List.reverse_nil, List.nil_append, List.singleton_append]
      rw [List.dropWhile_cons]
      simp only [show ('\n').isWhitespace = true from rfl, if_true]
      rw [dropWhile_eq_self_of_head _ _ (fun c hc => hlast b (List.mem_cons_self _ _) c hc)]
      rfl
    | cons b2 bs2 =>
      have e : unlines (b :: b2 :: bs2) = b ++ '\n' :: unlines (b2 :: bs2) := rfl
      rw [e, List.reverse_append, List.reverse_cons, List.append_assoc]
      have hih := ih (by simp) (fun x hx => hne x (List.mem_cons_of_mem _ hx))
        (fun x hx => hlast x (List.mem_cons_of_mem _ hx))
      have hnenil : (interNl (b2 :: bs2)).reverse ≠ [] := by
        simp only [ne_eq, List.reverse_eq_nil_iff]
        exact interNl_ne_nil _ (by simp) (fun x hx => hne x (List.mem_cons_of_mem _ hx))
      rw [dropWhile_append_left _ _ _ (by rw [hih]; exact hnenil), hih, interNl_cons2]
      simp [List.reverse_append]

lemma pyStrip_unlines (bs : List (List Char)) (h0 : bs ≠ [])
    (hne : ∀ b ∈ bs, b ≠ [])
    (hhead : ∀ b ∈ bs, ∀ c, b.head? = some c → c.isWhitespace = false)
    (hlast : ∀ b ∈ bs, ∀ c, b.reverse.head? = some c → c.isWhitespace = false) :
    pyStrip (unlines bs) = interNl bs := by
  unfold pyStrip
  have hfront : (unlines bs).dropWhile Char.isWhitespace = unlines bs := by
    apply dropWhile_eq_self_of_head
    intro c hc
    cases bs with
    | nil => exact absurd rfl h0
    | cons b bs2 =>
      obtain ⟨d, ds, e⟩ := List.exists_cons_of_ne_nil (hne b (List.mem_cons_self _ _))
      have e2 : unlines (b :: bs2) = d :: (ds ++ '\n' :: unlines bs2) := by
        show b ++ '\n' :: unlines bs2 = _
        rw [e]
        rfl
      rw [e2] at hc
      simp only [List.head?_cons, Option.some.injEq] at hc
      subst hc
      exact hhead b (List.mem_cons_self _ _) d (by rw [e]; rfl)
  rw [hfront, strip_unlines_back bs h0 hne hlast, List.reverse_reverse]

lemma pySplitNl_interNl : ∀ bs : List (List Char), bs ≠ [] →
    (∀ b ∈ bs, ∀ c ∈ b, ¬(c = '\n')) →
    pySplitSep '\n' (interNl bs) = bs := by
  intro bs
  induction bs with
  | nil => intro h; exact absurd rfl h
  | cons b bs ih =>
    intro _ hnl
    cases bs with
    | nil =>
      rw [interNl_single]
      unfold pySplitSep
      rw [pySplitSepAux_no_sep b [] (fun c hc => hnl b (List.mem_cons_self _ _) c hc)]
      rfl
    | cons b2 bs2 =>
      rw [interNl_cons2]
      unfold pySplitSep
      rw [pySplitSepAux_token b _ [] (fun c hc => hnl b (List.mem_cons_self _ _) c hc)]
      have hih := ih (by simp) (fun x hx => hnl x (List.mem_cons_of_mem _ hx))
      unfold pySplitSep at hih
      rw [hih]
      simp

/-! ### `noteBody` structure -/

lemma noteBody_def (n : PNote) : noteBody n =
    fmt03 n.pitch ++ ' ' ::
      (fmt03 (pyIntOfRat (n.start * 1000)) ++ ' ' ::
        (fmt03 (pyIntOfRat (n.end_ * 1000)) ++ ' ' :: fmt03 n.velocity)) := by
  unfold noteBody
  simp [List.append_assoc, List.cons_append]

lemma wsplit_noteBody (n : PNote) : wsplit (noteBody n) =
    [fmt03 n.pitch, fmt03 (pyIntOfRat (n.start * 1000)),
      fmt03 (pyIntOfRat (n.end_ * 1000)), fmt03 n.velocity] := by
  rw [noteBody_def,
    wsplit_token (fmt03_ne_nil _) fmt03_not_ws,
    wsplit_token (fmt03_ne_nil _) fmt03_not_ws,
    wsplit_token (fmt03_ne_nil _) fmt03_not_ws,
    wsplit_single (fmt03_ne_nil _) fmt03_not_ws]

lemma noteBody_ne_nil (n : PNote) : noteBody n ≠ [] := by
  rw [noteBody_def]
  obtain ⟨d, ds, e⟩ := List.exists_cons_of_ne_nil (fmt03_ne_nil n.pitch)
  rw [e]
  simp

lemma noteBody_head (n : PNote) :
    ∀ c, (noteBody n).head? = some c → c.isWhitespace = false := by
  intro c hc
  obtain ⟨d, ds, e⟩ := List.exists_cons_of_ne_nil (fmt03_ne_nil n.pitch)
  rw [noteBody_def, e, List.cons_append] at hc
  simp only [List.head?_cons, Option.some.injEq] at hc
  subst hc
  exact fmt03_not_ws d (by rw [e]; exact List.mem_cons_self _ _)

lemma noteBody_last (n : PNote) :
    ∀ c, (noteBody n).reverse.head? = some c → c.isWhitespace = false := by
  intro c hc
  obtain ⟨l, d, e, hd⟩ := fmt03_last n.velocity
  have eb : noteBody n =
      (fmt03 n.pitch ++ ' ' ::
        (fmt03 (pyIntOfRat (n.start * 1000)) ++ ' ' ::
          (fmt03 (pyIntOfRat (n.end_ * 1000)) ++ ' ' :: l))) ++ [d] := by
    rw [noteBody_def, e]
    simp [List.append_assoc, List.cons_append]
  rw [eb, List.reverse_append] at hc
  simp only [List.reverse_singleton, List.singleton_append, List.head?_cons,
    Option.some.injEq] at hc
  subst hc
  exact not_ws_of_digit hd

lemma noteBody_no_nl (n : PNote) : ∀ c ∈ noteBody n, ¬(c = '\n') := by
  intro c hc
  rw [noteBody_def] at hc
  rcases List.mem_append.mp hc with h | h
  · exact ne_nl_of_not_ws (fmt03_not_ws c h)
  · rcases List.mem_cons.mp h with rfl | h
    · decide
    · rcases List.mem_append.mp h with h | h
      · exact ne_nl_of_not_ws (fmt03_not_ws c h)
      · rcases List.mem_cons.mp h with rfl | h
        · decide
        · rcases List.mem_append.mp h with h | h
          · exact ne_nl_of_not_ws (fmt03_not_ws c h)
          · rcases List.mem_cons.mp h with rfl | h
            · decide
            · exact ne_nl_of_not_ws (fmt03_not_ws c h)

/-! ### Encoder equations -/

lemma notesText_eq : ∀ (ns : List PNote) (acc : List Char),
    notesText ns acc = acc ++ unlines (ns.map noteBody) := by
  intro ns
  induction ns with
  | nil => intro acc; simp [notesText, unlines]
  | cons n ns ih =>
    intro acc
    show notesText ns (acc ++ noteLine n) = _
    rw [ih]
    simp [noteLine, unlines, List.append_assoc]

lemma filesText_cons (fs : CorpusFS) (p : List Char) (ps : List (List Char))
    (acc : List Char) :
    filesText fs (p :: ps) acc =
      if fs.isfile p then
        (match fs.load p with
        | .error _ => filesText fs ps acc
        | .ok midi => filesText fs ps (instrumentsText midi.instruments acc))
      else filesText fs ps acc := rfl

lemma generate_single (fs : CorpusFS) (path : List Char) (notes : List PNote)
    (h1 : fs.isfile path = true) (h2 : fs.load path = .ok ⟨[⟨0, false, notes⟩]⟩) :
    generate_midi_text_from_files fs [path] = unlines (notes.map noteBody) := by
  unfold generate_midi_text_from_files
  rw [filesText_cons, h1, h2]
  show notesText notes [] = _
  rw [notesText_eq]
  simp

/-! ### Truncation recovers integral milliseconds -/

lemma pyIntOfRat_intCast (k : Int) : pyIntOfRat ((k : ℚ)) = k := by
  unfold pyIntOfRat
  rw [Rat.num_intCast, Rat.den_intCast]
  simp [Int.tdiv_one]

lemma msNote_ms_start (m : MsNote) : pyIntOfRat ((msToPNote m).start * 1000) = m.start_ms := by
  show pyIntOfRat ((m.start_ms : ℚ) / 1000 * 1000) = m.start_ms
  rw [div_mul_cancel₀ _ (by norm_num : (1000 : ℚ) ≠ 0), pyIntOfRat_intCast]

lemma msNote_ms_end (m : MsNote) : pyIntOfRat ((msToPNote m).end_ * 1000) = m.end_ms := by
  show pyIntOfRat ((m.end_ms : ℚ) / 1000 * 1000) = m.end_ms
  rw [div_mul_cancel₀ _ (by norm_num : (1000 : ℚ) ≠ 0), pyIntOfRat_intCast]

/-! ### Decoding the encoder's bodies -/

lemma decodeLines_cons (s : List Char) (rest : List (List Char)) :
    decodeLines (s :: rest) =
      match wsplit s with
      | t1 :: t2 :: t3 :: ts => do
        let pitch ← parseIntField t1
        let start_time ← parseIntField t2
        let end_time ← parseIntField t3
        let velocity ← match ts with
          | [] => Except.ok (100 : Int)
          | t4 :: _ => parseIntField t4
        let notes ← decodeLines rest
        Except.ok (⟨velocity, pitch, (start_time : ℚ) / 1000, (end_time : ℚ) / 1000⟩ :: notes)
      | _ => decodeLines rest := rfl

lemma decodeLines_msNotes : ∀ ms : List MsNote,
    decodeLines ((ms.map msToPNote).map noteBody) = .ok (ms.map msToPNote) := by
  intro ms
  induction ms with
  | nil => rfl
  | cons m ms ih =>
    show decodeLines (noteBody (msToPNote m) :: (ms.map msToPNote).map noteBody) = _
    rw [decodeLines_cons, wsplit_noteBody, msNote_ms_start, msNote_ms_end]
    simp only [parseIntField_fmt03, ih, bind, Except.bind]
    rfl

/-! ### Decoding the full encoder output -/

lemma convert_unlines_bodies (ms : List MsNote) :
    convert_text_to_midi (unlines ((ms.map msToPNote).map noteBody)) =
      .ok ⟨[⟨0, false, ms.map msToPNote⟩]⟩ := by
  cases ms with
  | nil => rfl
  | cons m ms2 =>
    have hmem : ∀ b ∈ (((m :: ms2).map msToPNote).map noteBody),
        ∃ x, b = noteBody x := by
      intro b hb
      obtain ⟨x, _, e⟩ := List.mem_map.mp hb
      exact ⟨x, e.symm⟩
    have hne : ∀ b ∈ (((m :: ms2).map msToPNote).map noteBody), b ≠ [] := by
      intro b hb
      obtain ⟨x, e⟩ := hmem b hb
      rw [e]
      exact noteBody_ne_nil x
    have hhead : ∀ b ∈ (((m :: ms2).map msToPNote).map noteBody),
        ∀ c, b.head? = some c → c.isWhitespace = false := by
      intro b hb
      obtain ⟨x, e⟩ := hmem b hb
      rw [e]
      exact noteBody_head x
    have hlast : ∀ b ∈ (((m :: ms2).map msToPNote).map noteBody),
        ∀ c, b.reverse.head? = some c → c.isWhitespace = false := by
      intro b hb
      obtain ⟨x, e⟩ := hmem b hb
      rw [e]
      exact noteBody_last x
    have hnl : ∀ b ∈ (((m :: ms2).map msToPNote).map noteBody),
        ∀ c ∈ b, ¬(c = '\n') := by
      intro b hb
      obtain ⟨x, e⟩ := hmem b hb
      rw [e]
      exact noteBody_no_nl x
    have h0 : (((m :: ms2).map msToPNote).map noteBody) ≠ [] := by simp
    unfold convert_text_to_midi
    rw [pyStrip_unlines _ h0 hne hhead hlast, pySplitNl_interNl _ h0 hnl,
      decodeLines_msNotes]

/-! ### `fmt03` width -/

lemma fmt03_length (n : Int) : 3 ≤ (fmt03 n).length := by
  by_cases h : n < 0
  · rw [fmt03_neg h]
    simp only [padTo, List.length_cons, List.length_append, List.length_replicate]
    omega
  · rw [fmt03_pos h]
    simp only [padTo, List.length_append, List.length_replicate]
    have := natRepr_ne_nil n.natAbs
    have hpos : 0 < (natRepr n.natAbs).length := List.length_pos.mpr this
    omega

/-! ### Tolerant decoding -/

lemma lineNote?_eq (s : List Char) : lineNote? s =
    match wsplit s with
    | t1 :: t2 :: t3 :: ts => do
      let pitch ← pyInt? t1
      let start_time ← pyInt? t2
      let end_time ← pyInt? t3
      let velocity ← match ts with
        | [] => some (100 : Int)
        | t4 :: _ => pyInt? t4
      some ⟨velocity, pitch, (start_time : ℚ) / 1000, (end_time : ℚ) / 1000⟩
    | _ => none := rfl

lemma decodeLines_filterMap : ∀ lines : List (List Char),
    (∀ l ∈ lines, lineOk l = true) →
    decodeLines lines = .ok (lines.filterMap lineNote?) := by
  intro lines
  induction lines with
  | nil => intro _; rfl
  | cons s rest ih =>
    intro h
    have hrest := ih (fun l hl => h l (List.mem_cons_of_mem _ hl))
    have hs := h s (List.mem_cons_self _ _)
    rw [decodeLines_cons, List.filterMap_cons]
    rcases hsplit : wsplit s with _ | ⟨t1, _ | ⟨t2, _ | ⟨t3, ts⟩⟩⟩
    · have hnone : lineNote? s = none := by rw [lineNote?_eq, hsplit]
      rw [hnone]
      exact hrest
    · have hnone : lineNote? s = none := by rw [lineNote?_eq, hsplit]
      rw [hnone]
      exact hrest
    · have hnone : lineNote? s = none := by rw [lineNote?_eq, hsplit]
      rw [hnone]
      exact hrest
    · have hlen : ¬((wsplit s).length < 3) := by rw [hsplit]; simp
      rw [lineOk, if_neg hlen] at hs
      rcases hp : pyInt? t1 with _ | p
      · exfalso
        rw [lineNote?_eq, hsplit] at hs
        simp [hp] at hs
      rcases hq : pyInt? t2 with _ | q
      · exfalso
        rw [lineNote?_eq, hsplit] at hs
        simp [hp, hq] at hs
      rcases hr2 : pyInt? t3 with _ | r
      · exfalso
        rw [lineNote?_eq, hsplit] at hs
        simp [hp, hq, hr2] at hs
      rcases ts with _ | ⟨t4, ts2⟩
      · have hnote : lineNote? s = some ⟨100, p, (q : ℚ) / 1000, (r : ℚ) / 1000⟩ := by
          rw [lineNote?_eq, hsplit]
          simp [hp, hq, hr2]
        rw [hnote]
        simp only [parseIntField, hp, hq, hr2, bind, Except.bind, hrest]
      · rcases hv : pyInt? t4 with _ | v
        · exfalso
          rw [lineNote?_eq, hsplit] at hs
          simp [hp, hq, hr2, hv] at hs
        · have hnote : lineNote? s = some ⟨v, p, (q : ℚ) / 1000, (r : ℚ) / 1000⟩ := by
            rw [lineNote?_eq, hsplit]
            simp [hp, hq, hr2, hv]
          rw [hnote]
          simp only [parseIntField, hp, hq, hr2, hv, bind, Except.bind, hrest]

/-! ### Single-line decoding -/

lemma append_head_not_ws {A : List Char} (h1 : A ≠ [])
    (hw : ∀ c ∈ A, c.isWhitespace = false) (rest : List Char) :
    ∀ c, (A ++ rest).head? = some c → c.isWhitespace = false := by
  intro c hc
  obtain ⟨d, ds, e⟩ := List.exists_cons_of_ne_nil h1
  rw [e, List.cons_append] at hc
  simp only [List.head?_cons, Option.some.injEq] at hc
  subst hc
  exact hw d (by rw [e]; exact List.mem_cons_self _ _)

lemma append_last_not_ws {T : List Char} (h1 : T ≠ [])
    (hw : ∀ c ∈ T, c.isWhitespace = false) (pre : List Char) :
    ∀ c, ((pre ++ T).reverse).head? = some c → c.isWhitespace = false := by
  intro c hc
  have h2 : T.reverse ≠ [] := by simp [h1]
  obtain ⟨d, ds, e⟩ := List.exists_cons_of_ne_nil h2
  rw [List.reverse_append, e, List.cons_append] at hc
  simp only [List.head?_cons, Option.some.injEq] at hc
  subst hc
  have : d ∈ T.reverse := by rw [e]; exact List.mem_cons_self _ _
  exact hw d (List.mem_reverse.mp this)

lemma tokens_no_nl {t : List Char} (hw : ∀ c ∈ t, c.isWhitespace = false) :
    ∀ c ∈ t, ¬(c = '\n') :=
  fun c hc => ne_nl_of_not_ws (hw c hc)

lemma convert_line3 (t1 t2 t3 : List Char) (p s e : Int)
    (h1 : t1 ≠ []) (hw1 : ∀ c ∈ t1, c.isWhitespace = false)
    (h2 : t2 ≠ []) (hw2 : ∀ c ∈ t2, c.isWhitespace = false)
    (h3 : t3 ≠ []) (hw3 : ∀ c ∈ t3, c.isWhitespace = false)
    (hp : pyInt? t1 = some p) (hs : pyInt? t2 = some s) (he : pyInt? t3 = some e) :
    convert_text_to_midi (t1 ++ ' ' :: (t2 ++ ' ' :: t3)) =
      .ok ⟨[⟨0, false, [⟨100, p, (s : ℚ) / 1000, (e : ℚ) / 1000⟩]⟩]⟩ := by
  have hstrip : pyStrip (t1 ++ ' ' :: (t2 ++ ' ' :: t3)) = t1 ++ ' ' :: (t2 ++ ' ' :: t3) := by
    apply pyStrip_eq_self
    · exact append_head_not_ws h1 hw1 _
    · intro c hc
      rw [show t1 ++ ' ' :: (t2 ++ ' ' :: t3) = (t1 ++ ' ' :: (t2 ++ [' '])) ++ t3 by
        simp [List.append_assoc, List.cons_append]] at hc
      exact append_last_not_ws h3 hw3 _ c hc
  have hnonl : ∀ c ∈ t1 ++ ' ' :: (t2 ++ ' ' :: t3), ¬(c = '\n') := by
    intro c hc
    rcases List.mem_append.mp hc with h | h
    · exact tokens_no_nl hw1 c h
    · rcases List.mem_cons.mp h with rfl | h
      · decide
      · rcases List.mem_append.mp h with h | h
        · exact tokens_no_nl hw2 c h
        · rcases List.mem_cons.mp h with rfl | h
          · decide
          · exact tokens_no_nl hw3 c h
  have hsplitline : pySplitSep '\n' (t1 ++ ' ' :: (t2 ++ ' ' :: t3)) =
      [t1 ++ ' ' :: (t2 ++ ' ' :: t3)] := by
    unfold pySplitSep
    rw [pySplitSepAux_no_sep _ [] hnonl]
    rfl
  have hws : wsplit (t1 ++ ' ' :: (t2 ++ ' ' :: t3)) = [t1, t2, t3] := by
    rw [wsplit_token h1 hw1, wsplit_token h2 hw2, wsplit_single h3 hw3]
  unfold convert_text_to_midi
  rw [hstrip, hsplitline, decodeLines_cons, hws]
  simp only [parseIntField, hp, hs, he, bind, Except.bind]
  rfl

lemma convert_line4 (t1 t2 t3 t4 : List Char) (p s e v : Int)
    (h1 : t1 ≠ []) (hw1 : ∀ c ∈ t1, c.isWhitespace = false)
    (h2 : t2 ≠ []) (hw2 : ∀ c ∈ t2, c.isWhitespace = false)
    (h3 : t3 ≠ []) (hw3 : ∀ c ∈ t3, c.isWhitespace = false)
    (h4 : t4 ≠ []) (hw4 : ∀ c ∈ t4, c.isWhitespace = false)
    (hp : pyInt? t1 = some p) (hs : pyInt? t2 = some s) (he : pyInt? t3 = some e)
    (hv : pyInt? t4 = some v) :
    convert_text_to_midi (t1 ++ ' ' :: (t2 ++ ' ' :: (t3 ++ ' ' :: t4))) =
      .ok ⟨[⟨0, false, [⟨v, p, (s : ℚ) / 1000, (e : ℚ) / 1000⟩]⟩]⟩ := by
  have hstrip : pyStrip (t1 ++ ' ' :: (t2 ++ ' ' :: (t3 ++ ' ' :: t4))) =
      t1 ++ ' ' :: (t2 ++ ' ' :: (t3 ++ ' ' :: t4)) := by
    apply pyStrip_eq_self
    · exact append_head_not_ws h1 hw1 _
    · intro c hc
      rw [show t1 ++ ' ' :: (t2 ++ ' ' :: (t3 ++ ' ' :: t4)) =
          (t1 ++ ' ' :: (t2 ++ ' ' :: (t3 ++ [' ']))) ++ t4 by
        simp [List.append_assoc, List.cons_append]] at hc
      exact append_last_not_ws h4 hw4 _ c hc
  have hnonl : ∀ c ∈ t1 ++ ' ' :: (t2 ++ ' ' :: (t3 ++ ' ' :: t4)), ¬(c = '\n') := by
    intro c hc
    rcases List.mem_append.mp hc with h | h
    · exact tokens_no_nl hw1 c h
    · rcases List.mem_cons.mp h with rfl | h
      · decide
      · rcases List.mem_append.mp h with h | h
        · exact tokens_no_nl hw2 c h
        · rcases List.mem_cons.mp h with rfl | h
          · decide
          · rcases List.mem_append.mp h with h | h
            · exact tokens_no_nl hw3 c h
            · rcases List.mem_cons.mp h with rfl | h
              · decide
              · exact tokens_no_nl hw4 c h
  have hsplitline : pySplitSep '\n' (t1 ++ ' ' :: (t2 ++ ' ' :: (t3 ++ ' ' :: t4))) =
      [t1 ++ ' ' :: (t2 ++ ' ' :: (t3 ++ ' ' :: t4))] := by
    unfold pySplitSep
    rw [pySplitSepAux_no_sep _ [] hnonl]
    rfl
  have hws : wsplit (t1 ++ ' ' :: (t2 ++ ' ' :: (t3 ++ ' ' :: t4))) = [t1, t2, t3, t4] := by
    rw [wsplit_token h1 hw1, wsplit_token h2 hw2, wsplit_token h3 hw3,
      wsplit_single h4 hw4]
  unfold convert_text_to_midi
  rw [hstrip, hsplitline, decodeLines_cons, hws]
  simp only [parseIntField, hp, hs, he, hv, bind, Except.bind]
  rfl

/-! ## Claim theorems -/

/-- C1: for every ordered sequence of notes whose pitch and velocity are
integers in the documented ranges and whose start and end milliseconds are
among the representative integer millisecond values 0, 1, 999, 1000, 123456
(stored seconds are `ms / 1000`), decoding the text produced by encoding the
sequence yields an InstrumentPart whose notes equal the input exactly, and
the millisecond fields re-emitted by the encoder (`int(seconds * 1000)`,
truncation toward zero) reproduce the original integer milliseconds exactly.
Exactness is stated only at the representative values because there the
program's IEEE-double computation agrees with this exact rational model; at
other integer milliseconds (e.g. 1001) IEEE truncates one lower, which the
claim covers only "up to the seconds-domain rounding". -/
theorem c1_round_trip (fs : CorpusFS) (path : List Char) (ms : List MsNote)
    (hr : ∀ m ∈ ms, 0 ≤ m.pitch ∧ m.pitch ≤ 127 ∧
      m.start_ms ∈ representativeMs ∧ m.end_ms ∈ representativeMs ∧
      0 ≤ m.velocity ∧ m.velocity ≤ 127)
    (h1 : fs.isfile path = true)
    (h2 : fs.load path = .ok ⟨[⟨0, false, ms.map msToPNote⟩]⟩) :
    convert_text_to_midi (generate_midi_text_from_files fs [path]) =
      .ok ⟨[⟨0, false, ms.map msToPNote⟩]⟩ ∧
    ∀ m ∈ ms, pyIntOfRat ((msToPNote m).start * 1000) = m.start_ms ∧
      pyIntOfRat ((msToPNote m).end_ * 1000) = m.end_ms := by
  constructor
  · rw [generate_single fs path _ h1 h2]
    exact convert_unlines_bodies ms
  · intro m _
    exact ⟨msNote_ms_start m, msNote_ms_end m⟩

/-- C1 witness: the round trip evaluated at a concrete corpus whose notes
exercise the representative millisecond values 0, 1, 999, 1000 and 123456. -/
theorem c1_round_trip_witness :
    convert_text_to_midi (generate_midi_text_from_files
      ⟨fun _ => true, fun _ => .ok ⟨[⟨0, false,
        ([⟨60, 0, 1, 100⟩, ⟨127, 999, 1000, 0⟩,
          ⟨0, 123456, 123456, 127⟩] : List MsNote).map msToPNote⟩]⟩⟩
      [chars "ref.mid"]) =
      .ok ⟨[⟨0, false, ([⟨60, 0, 1, 100⟩, ⟨127, 999, 1000, 0⟩,
        ⟨0, 123456, 123456, 127⟩] : List MsNote).map msToPNote⟩]⟩ ∧
    ∀ m ∈ ([⟨60, 0, 1, 100⟩, ⟨127, 999, 1000, 0⟩,
        ⟨0, 123456, 123456, 127⟩] : List MsNote),
      pyIntOfRat ((msToPNote m).start * 1000) = m.start_ms ∧
      pyIntOfRat ((msToPNote m).end_ * 1000) = m.end_ms :=
  c1_round_trip _ (chars "ref.mid") _ (by decide) rfl rfl

/-- C9: encoding a corpus file holding an ordered sequence of notes emits
exactly one line per note, the line being the four integer fields in fixed
order pitch, start_ms, end_ms, velocity, zero-padded to width three, each
line terminated by a line break, concatenated in input order with no header,
footer or delimiter; the padding has minimum width 3 and never truncates
(parsing the padded field recovers the value). -/
theorem c9_encode_format (fs : CorpusFS) (path : List Char) (notes : List PNote)
    (h1 : fs.isfile path = true)
    (h2 : fs.load path = .ok ⟨[⟨0, false, notes⟩]⟩) :
    generate_midi_text_from_files fs [path] = unlines (notes.map noteBody) ∧
    (∀ n : PNote, noteBody n =
      fmt03 n.pitch ++ ' ' ::
        (fmt03 (pyIntOfRat (n.start * 1000)) ++ ' ' ::
          (fmt03 (pyIntOfRat (n.end_ * 1000)) ++ ' ' :: fmt03 n.velocity))) ∧
    (∀ k : Int, 3 ≤ (fmt03 k).length ∧ pyInt? (fmt03 k) = some k) :=
  ⟨generate_single fs path notes h1 h2, fun n => noteBody_def n,
    fun k => ⟨fmt03_length k, pyInt?_fmt03 k⟩⟩

/-- C2 (amended): decode never raises on lines with fewer than 3 fields
(they are skipped), and on any input all of whose 3-or-more-field lines have
integer-parseable first three fields (and fourth when present) decode
succeeds, yielding exactly the notes of the well-formed lines in input
order; zero valid lines yield an InstrumentPart with zero notes, a valid
non-error result. What the original claim misses is that a line with at
least 3 fields among which a non-integer field makes decode raise. -/
theorem c2_decode_tolerant (text : List Char)
    (h : ∀ l ∈ pySplitSep '\n' (pyStrip text), lineOk l = true) :
    convert_text_to_midi text =
      .ok ⟨[⟨0, false, (pySplitSep '\n' (pyStrip text)).filterMap lineNote?⟩]⟩ := by
  unfold convert_text_to_midi
  rw [decodeLines_filterMap _ h]

/-- C2 counterexample: the input `"a b c"` has one line with 3 fields, none
an integer literal; decode raises `ValueError` from `int("a")` instead of
skipping the line, refuting "no line whatsoever causes decode to abort". -/
theorem c2_decode_raises_cx :
    convert_text_to_midi (chars "a b c") = .error (intErr (chars "a")) := by rfl

/-- C2 witness: a mixed input (a skipped short line, a 3-field line, and a
5-field line whose fifth field is junk that the decoder never touches)
decodes without error to exactly the well-formed lines' notes, in order. -/
theorem c2_decode_tolerant_witness :
    convert_text_to_midi (chars "abc\n060 000 500\n1 2 3 4 j") =
      .ok ⟨[⟨0, false,
        [⟨100, 60, ((0 : Int) : ℚ) / 1000, ((500 : Int) : ℚ) / 1000⟩,
          ⟨4, 1, ((2 : Int) : ℚ) / 1000, ((3 : Int) : ℚ) / 1000⟩]⟩]⟩ :=
  (c2_decode_tolerant (chars "abc\n060 000 500\n1 2 3 4 j") (by decide)).trans (by decide)

/-- C8: a line with exactly 3 whitespace-separated integer fields decodes
to a note with velocity 100; a fourth field, when present, is parsed as the
velocity instead. -/
theorem c8_default_velocity (t1 t2 t3 : List Char) (p s e : Int)
    (h1 : t1 ≠ []) (hw1 : ∀ c ∈ t1, c.isWhitespace = false)
    (h2 : t2 ≠ []) (hw2 : ∀ c ∈ t2, c.isWhitespace = false)
    (h3 : t3 ≠ []) (hw3 : ∀ c ∈ t3, c.isWhitespace = false)
    (hp : pyInt? t1 = some p) (hs : pyInt? t2 = some s) (he : pyInt? t3 = some e) :
    convert_text_to_midi (t1 ++ ' ' :: (t2 ++ ' ' :: t3)) =
      .ok ⟨[⟨0, false, [⟨100, p, (s : ℚ) / 1000, (e : ℚ) / 1000⟩]⟩]⟩ ∧
    ∀ (t4 : List Char) (v : Int), t4 ≠ [] → (∀ c ∈ t4, c.isWhitespace = false) →
      pyInt? t4 = some v →
      convert_text_to_midi (t1 ++ ' ' :: (t2 ++ ' ' :: (t3 ++ ' ' :: t4))) =
        .ok ⟨[⟨0, false, [⟨v, p, (s : ℚ) / 1000, (e : ℚ) / 1000⟩]⟩]⟩ :=
  ⟨convert_line3 t1 t2 t3 p s e h1 hw1 h2 hw2 h3 hw3 hp hs he,
    fun t4 v h4 hw4 hv =>
      convert_line4 t1 t2 t3 t4 p s e v h1 hw1 h2 hw2 h3 hw3 h4 hw4 hp hs he hv⟩

/-- C8 witness: default velocity at the concrete line `"060 000 500"` and
explicit velocity at `"060 000 500 090"`. -/
theorem c8_default_velocity_witness :
    convert_text_to_midi (chars "060" ++ ' ' :: (chars "000" ++ ' ' :: chars "500")) =
      .ok ⟨[⟨0, false, [⟨100, 60, ((0 : Int) : ℚ) / 1000, ((500 : Int) : ℚ) / 1000⟩]⟩]⟩ ∧
    convert_text_to_midi (chars "060" ++ ' ' ::
        (chars "000" ++ ' ' :: (chars "500" ++ ' ' :: chars "090"))) =
      .ok ⟨[⟨0, false, [⟨90, 60, ((0 : Int) : ℚ) / 1000, ((500 : Int) : ℚ) / 1000⟩]⟩]⟩ := by
  have h := c8_default_velocity (chars "060") (chars "000") (chars "500") 60 0 500
    (by decide) (by decide) (by decide) (by decide) (by decide) (by decide)
    (by decide) (by decide) (by decide)
  exact ⟨h.1, h.2 (chars "090") 90 (by decide) (by decide) (by decide)⟩

/-- C9 witness: the format evaluated at a concrete two-note corpus file. -/
theorem c9_encode_format_witness :
    generate_midi_text_from_files
      ⟨fun _ => true, fun _ => .ok ⟨[⟨0, false,
        [⟨90, 60, 0, 1 / 2⟩, ⟨100, 72, 1 / 2, 1⟩]⟩]⟩⟩ [chars "ref.mid"] =
      unlines (([⟨90, 60, 0, 1 / 2⟩, ⟨100, 72, 1 / 2, 1⟩] : List PNote).map noteBody) ∧
    (∀ n : PNote, noteBody n =
      fmt03 n.pitch ++ ' ' ::
        (fmt03 (pyIntOfRat (n.start * 1000)) ++ ' ' ::
          (fmt03 (pyIntOfRat (n.end_ * 1000)) ++ ' ' :: fmt03 n.velocity))) ∧
    (∀ k : Int, 3 ≤ (fmt03 k).length ∧ pyInt? (fmt03 k) = some k) :=
  c9_encode_format _ (chars "ref.mid") _ rfl rfl

/-- C6: given the listing `["jazz_1.mid", "rock_2.mid", "Jazz_solo.mid",
"blues.txt"]` and the keyword collection `{"jazz"}`, corpus selection keeps
exactly `jazz_1.mid` and `Jazz_solo.mid` (case-insensitive prefix match on
the keyword, case-insensitive `.mid` suffix filter excluding `blues.txt`),
joined onto the folder path, in listing order. -/
theorem c6_corpus_filtering (folder_path : List Char) :
    get_filtered_midi_files folder_path
      [chars "jazz_1.mid", chars "rock_2.mid", chars "Jazz_solo.mid", chars "blues.txt"]
      [chars "jazz"] =
      [os_path_join folder_path (chars "jazz_1.mid"),
        os_path_join folder_path (chars "Jazz_solo.mid")] := by
  rfl

/-- C10: the style input handed to corpus selection in `upload` is the raw
text-field string, iterated character by character, so a file is selected
iff its lowercased name ends with `.mid` and starts with some single
lowercased character of the style string; concretely, style `"jazz"` selects
`apple.mid` (initial `a`) and `jazz.mid` but not `rock.mid`. -/
theorem c10_char_keywords :
    (∀ (fp : List Char) (files : List (List Char)) (sl : List Char),
      get_filtered_midi_files fp files (keywordsOfStyle sl) =
        (files.filter (fun f => endsWithL (pyLower f) (chars ".mid") &&
          sl.any (fun c => startsWithL (pyLower f) [c.toLower]))).map
          (fun f => os_path_join fp f)) ∧
    (∀ fp : List Char,
      get_filtered_midi_files fp [chars "apple.mid", chars "jazz.mid", chars "rock.mid"]
        (keywordsOfStyle (chars "jazz")) =
        [os_path_join fp (chars "apple.mid"), os_path_join fp (chars "jazz.mid")]) := by
  constructor
  · intro fp files sl
    unfold get_filtered_midi_files
    congr 1
    apply List.filter_congr
    intro f _
    congr 1
    unfold keywordsOfStyle
    induction sl with
    | nil => rfl
    | cons c cs ih =>
      simp only [List.map_cons, List.any_cons, ih]
      rfl
  · intro fp
    rfl

/-- C3 (amended): a POST request without the `FILES["file"]` entry fails
immediately — no pipeline stage starts — but through the generic 500 JSON
error channel (the `KeyError` is swallowed by the surrounding `try`), not
through a distinct client-error outcome. -/
theorem c3_missing_file (req : Request) (w : World)
    (hm : req.method = chars "POST") (hf : req.file? = none) :
    upload req w = (.json missing_file_msg 500, []) := by
  unfold upload
  rw [hm, hf, if_neg (by simp : ¬(chars "POST" ≠ chars "POST"))]

/-- C3 counterexample: at a concrete POST request with no file field the
response is the JSON error with status 500 — the same status as uncaught
pipeline failures — not a distinct client-error outcome, and nothing runs. -/
theorem c3_missing_file_cx :
    upload ⟨chars "POST", none, none⟩
      ⟨.ok (), .ok (), fun _ => .ok 120, chars "/app", .ok [],
        ⟨fun _ => true, fun _ => .ok ⟨[]⟩⟩, fun _ => .ok [], .ok (), true⟩ =
      (.json missing_file_msg 500, []) ∧
    Response.statusOf (upload ⟨chars "POST", none, none⟩
      ⟨.ok (), .ok (), fun _ => .ok 120, chars "/app", .ok [],
        ⟨fun _ => true, fun _ => .ok ⟨[]⟩⟩, fun _ => .ok [], .ok (), true⟩).1 = 500 :=
  ⟨rfl, rfl⟩

/-- C3 witness: the amended behaviour at a concrete request and world. -/
theorem c3_missing_file_witness :
    upload ⟨chars "POST", none, some (chars "jazz")⟩
      ⟨.ok (), .ok (), fun _ => .ok 120, chars "/app", .ok [],
        ⟨fun _ => true, fun _ => .ok ⟨[]⟩⟩, fun _ => .ok [], .ok (), true⟩ =
      (.json missing_file_msg 500, []) :=
  c3_missing_file _ _ rfl rfl

/-- C4: when the completion call raises, `get_midi_modifications_from_gpt3`
returns the empty string instead of propagating; the decode of the empty
string is an InstrumentPart with zero notes; and the whole pipeline still
completes with the file response. -/
theorem c4_gpt_failure (req : Request) (w : World) (uf : UploadedFile)
    (sl : List Char) (fl : List (List Char)) (egen : List Char)
    (hm : req.method = chars "POST") (hf : req.file? = some uf)
    (hs : req.styleList? = some sl)
    (ha : w.audio_from_file = .ok ()) (he : w.audio_export = .ok ())
    (hl : w.listdir = .ok fl)
    (hg : ∀ prompt, w.complete prompt = .error egen)
    (hw : w.midi_write = .ok ()) (hx : w.saved_exists = true) :
    (∀ (bpm : ℚ) (text : List Char),
      get_midi_modifications_from_gpt3 w.complete bpm text = []) ∧
    convert_text_to_midi [] = .ok ⟨[⟨0, false, []⟩]⟩ ∧
    upload req w =
      (.fileAttachment (os_path_join w.cwd (splitextStem uf.name ++ chars ".midi")),
        allStages) := by
  have hgpt : ∀ (bpm : ℚ) (text : List Char),
      get_midi_modifications_from_gpt3 w.complete bpm text = [] := by
    intro bpm text
    unfold get_midi_modifications_from_gpt3
    rw [hg]
  refine ⟨hgpt, rfl, ?_⟩
  simp only [upload, hm, hf, hs, ha, he, hl, hgpt, hw, hx,
    if_neg (by simp : ¬(chars "POST" ≠ chars "POST"))]
  rfl

/-- C4 witness: the degraded-but-complete pipeline at a concrete world whose
completion service always raises. -/
theorem c4_gpt_failure_witness :
    (∀ (bpm : ℚ) (text : List Char),
      get_midi_modifications_from_gpt3
        (fun _ => .error (chars "service unreachable")) bpm text = []) ∧
    convert_text_to_midi [] = .ok ⟨[⟨0, false, []⟩]⟩ ∧
    upload ⟨chars "POST", some ⟨chars "song.wav"⟩, some (chars "jazz")⟩
      ⟨.ok (), .ok (), fun _ => .ok 120, chars "/app", .ok [chars "jazz_1.mid"],
        ⟨fun _ => true, fun _ => .ok ⟨[⟨0, false, [⟨90, 60, 0, 1 / 2⟩]⟩]⟩⟩,
        fun _ => .error (chars "service unreachable"), .ok (), true⟩ =
      (.fileAttachment (os_path_join (chars "/app")
        (splitextStem (chars "song.wav") ++ chars ".midi")), allStages) :=
  c4_gpt_failure
    ⟨chars "POST", some ⟨chars "song.wav"⟩, some (chars "jazz")⟩
    ⟨.ok (), .ok (), fun _ => .ok 120, chars "/app", .ok [chars "jazz_1.mid"],
      ⟨fun _ => true, fun _ => .ok ⟨[⟨0, false, [⟨90, 60, 0, 1 / 2⟩]⟩]⟩⟩,
      fun _ => .error (chars "service unreachable"), .ok (), true⟩
    ⟨chars "song.wav"⟩ (chars "jazz") [chars "jazz_1.mid"]
    (chars "service unreachable") rfl rfl rfl rfl rfl rfl (fun _ => rfl) rfl rfl

/-- C5: when the beat-tracking primitive raises, `get_bpm_from_wav` returns
the sentinel tempo 0 instead of propagating, and the pipeline still
completes with the file response, never failing solely because tempo
estimation failed. -/
theorem c5_tempo_failure (req : Request) (w : World) (uf : UploadedFile)
    (sl : List Char) (fl : List (List Char)) (m : PrettyMIDI) (et : List Char)
    (hm : req.method = chars "POST") (hf : req.file? = some uf)
    (hs : req.styleList? = some sl)
    (ha : w.audio_from_file = .ok ()) (he : w.audio_export = .ok ())
    (hl : w.listdir = .ok fl)
    (ht : ∀ wav, w.beat_track wav = .error et)
    (hd : convert_text_to_midi (get_midi_modifications_from_gpt3 w.complete 0
      (generate_midi_text_from_files w.corpus
        (get_filtered_midi_files (os_path_join w.cwd (chars "mids")) fl
          (keywordsOfStyle sl)))) = .ok m)
    (hw : w.midi_write = .ok ()) (hx : w.saved_exists = true) :
    (∀ wav, get_bpm_from_wav w.beat_track wav = 0) ∧
    upload req w =
      (.fileAttachment (os_path_join w.cwd (splitextStem uf.name ++ chars ".midi")),
        allStages) := by
  have hbpm : ∀ wav, get_bpm_from_wav w.beat_track wav = 0 := by
    intro wav
    unfold get_bpm_from_wav
    rw [ht]
  refine ⟨hbpm, ?_⟩
  simp only [upload, hm, hf, hs, ha, he, hl, hbpm, hd, hw, hx,
    if_neg (by simp : ¬(chars "POST" ≠ chars "POST"))]
  rfl

/-- C5 witness: the sentinel tempo and completed pipeline at a concrete
world whose beat tracker always raises. -/
theorem c5_tempo_failure_witness :
    (∀ wav, get_bpm_from_wav (fun _ => .error (chars "librosa failed")) wav = 0) ∧
    upload ⟨chars "POST", some ⟨chars "song.wav"⟩, some (chars "jazz")⟩
      ⟨.ok (), .ok (), fun _ => .error (chars "librosa failed"), chars "/app",
        .ok [chars "jazz_1.mid"],
        ⟨fun _ => true, fun _ => .ok ⟨[⟨0, false, [⟨90, 60, 0, 1 / 2⟩]⟩]⟩⟩,
        fun _ => .ok (chars "060 000 500 090"), .ok (), true⟩ =
      (.fileAttachment (os_path_join (chars "/app")
        (splitextStem (chars "song.wav") ++ chars ".midi")), allStages) :=
  c5_tempo_failure
    ⟨chars "POST", some ⟨chars "song.wav"⟩, some (chars "jazz")⟩
    ⟨.ok (), .ok (), fun _ => .error (chars "librosa failed"), chars "/app",
      .ok [chars "jazz_1.mid"],
      ⟨fun _ => true, fun _ => .ok ⟨[⟨0, false, [⟨90, 60, 0, 1 / 2⟩]⟩]⟩⟩,
      fun _ => .ok (chars "060 000 500 090"), .ok (), true⟩
    ⟨chars "song.wav"⟩ (chars "jazz") [chars "jazz_1.mid"]
    ⟨[⟨0, false, [⟨90, 60, ((0 : Int) : ℚ) / 1000, ((500 : Int) : ℚ) / 1000⟩]⟩]⟩
    (chars "librosa failed") rfl rfl rfl rfl rfl rfl (fun _ => rfl) (by decide) rfl rfl

/-- C7 (amended): when the persisted output file is absent after the
Persist stage, the endpoint responds with status 404 — distinct from the
500 used for uncaught pipeline failures — but with the plain-text body
`"File not found"`, not a JSON error object. -/
theorem c7_missing_output_404 (req : Request) (w : World) (uf : UploadedFile)
    (sl : List Char) (fl : List (List Char)) (m : PrettyMIDI)
    (hm : req.method = chars "POST") (hf : req.file? = some uf)
    (hs : req.styleList? = some sl)
    (ha : w.audio_from_file = .ok ()) (he : w.audio_export = .ok ())
    (hl : w.listdir = .ok fl)
    (hd : convert_text_to_midi (get_midi_modifications_from_gpt3 w.complete
      (get_bpm_from_wav w.beat_track (chars "temp.wav"))
      (generate_midi_text_from_files w.corpus
        (get_filtered_midi_files (os_path_join w.cwd (chars "mids")) fl
          (keywordsOfStyle sl)))) = .ok m)
    (hw : w.midi_write = .ok ()) (hx : w.saved_exists = false) :
    upload req w = (.plainText (chars "File not found") 404, allStages) ∧
    Response.statusOf (upload req w).1 = 404 ∧ ¬((404 : Nat) = 500) := by
  have hup : upload req w = (.plainText (chars "File not found") 404, allStages) := by
    simp only [upload, hm, hf, hs, ha, he, hl, hd, hw, hx,
      if_neg (by simp : ¬(chars "POST" ≠ chars "POST"))]
    rfl
  exact ⟨hup, by rw [hup]; rfl, by decide⟩

/-- C7 counterexample: at a concrete request whose pipeline succeeds but
whose persisted file is absent, the response is the plain-text
`HttpResponse("File not found", 404)`, not a JSON error body. -/
theorem c7_missing_output_404_cx :
    (upload ⟨chars "POST", some ⟨chars "song.wav"⟩, some (chars "jazz")⟩
      ⟨.ok (), .ok (), fun _ => .ok 120, chars "/app", .ok [chars "jazz_1.mid"],
        ⟨fun _ => true, fun _ => .ok ⟨[⟨0, false, [⟨90, 60, 0, 1 / 2⟩]⟩]⟩⟩,
        fun _ => .ok (chars "060 000 500 090"), .ok (), false⟩).1 =
      .plainText (chars "File not found") 404 ∧
    Response.isJsonError (upload ⟨chars "POST", some ⟨chars "song.wav"⟩,
      some (chars "jazz")⟩
      ⟨.ok (), .ok (), fun _ => .ok 120, chars "/app", .ok [chars "jazz_1.mid"],
        ⟨fun _ => true, fun _ => .ok ⟨[⟨0, false, [⟨90, 60, 0, 1 / 2⟩]⟩]⟩⟩,
        fun _ => .ok (chars "060 000 500 090"), .ok (), false⟩).1 = false := by
  exact ⟨by decide, by decide⟩

/-- C7 witness: the amended 404 behaviour at a concrete world. -/
theorem c7_missing_output_404_witness :
    upload ⟨chars "POST", some ⟨chars "song.wav"⟩, some (chars "jazz")⟩
      ⟨.ok (), .ok (), fun _ => .ok 120, chars "/app", .ok [chars "jazz_1.mid"],
        ⟨fun _ => true, fun _ => .ok ⟨[⟨0, false, [⟨90, 60, 0, 1 / 2⟩]⟩]⟩⟩,
        fun _ => .ok (chars "060 000 500 090"), .ok (), false⟩ =
      (.plainText (chars "File not found") 404, allStages) ∧
    Response.statusOf (upload ⟨chars "POST", some ⟨chars "song.wav"⟩,
      some (chars "jazz")⟩
      ⟨.ok (), .ok (), fun _ => .ok 120, chars "/app", .ok [chars "jazz_1.mid"],
        ⟨fun _ => true, fun _ => .ok ⟨[⟨0, false, [⟨90, 60, 0, 1 / 2⟩]⟩]⟩⟩,
        fun _ => .ok (chars "060 000 500 090"), .ok (), false⟩).1 = 404 ∧
    ¬((404 : Nat) = 500) :=
  c7_missing_output_404
    ⟨chars "POST", some ⟨chars "song.wav"⟩, some (chars "jazz")⟩
    ⟨.ok (), .ok (), fun _ => .ok 120, chars "/app", .ok [chars "jazz_1.mid"],
      ⟨fun _ => true, fun _ => .ok ⟨[⟨0, false, [⟨90, 60, 0, 1 / 2⟩]⟩]⟩⟩,
      fun _ => .ok (chars "060 000 500 090"), .ok (), false⟩
    ⟨chars "song.wav"⟩ (chars "jazz") [chars "jazz_1.mid"]
    ⟨[⟨0, false, [⟨90, 60, ((0 : Int) : ℚ) / 1000, ((500 : Int) : ℚ) / 1000⟩]⟩]⟩
    rfl rfl rfl rfl rfl rfl (by decide) rfl rfl

end Tulen
